import Mathlib

/-!
Verification development for `chase_pdf_to_csv.py`.

The program extracts transactions from the text of Chase bank statements,
aggregates them per account name, sorts each account's transactions, and
writes CSV files.  We embed the pure core of the program: the two regular
expressions and their Python `re` matching semantics (leftmost match,
greedy quantifiers with backtracking), the `strptime('%d %b %Y')` date
parse, the `defaultdict(list)` aggregation of `main`, the tuple sort
`list.sort()`, and `generate_filename`.

Texts are embedded as `List Char`.  Character classes are modelled on the
ASCII/Latin-1 fragment (the inputs of interest are ASCII plus `£`), matching
Python's `\d`, `\w`, `\s` there.
-/

namespace Chase

/-- Calendar date as a (year, month, day) triple; Python `datetime.date`
compares chronologically, which is lexicographic on this triple. -/
abbrev Date := Nat × Nat × Nat

/-- The program's `Transaction = tuple[datetime, str, str]`:
(date, description, signed amount string). -/
abbrev Txn := Date × List Char × List Char

/-- Python regex class `\d` (ASCII fragment). -/
def isDigitCh (c : Char) : Bool := c.isDigit

/-- Python regex class `\w` (ASCII fragment): letters, digits, underscore. -/
def isWordCh (c : Char) : Bool := c.isAlphanum || c = '_'

/-- Python regex class `\s` (ASCII fragment): space, tab, newline, CR, VT, FF. -/
def isWS (c : Char) : Bool :=
  c = ' ' || c = '\t' || c = '\n' || c = '\r' || c = Char.ofNat 11 || c = Char.ofNat 12

/-- Class `[0-9,]` of the amount groups. -/
def isAmtCh (c : Char) : Bool := c.isDigit || c = ','

/-- Class matched by `.` (any character except newline; no DOTALL flag). -/
def isDot (c : Char) : Bool := !(c = '\n')

/-- Match one literal character, returning the remainder. -/
def expectCh (c : Char) : List Char → Option (List Char)
  | x :: rest => if x = c then some rest else none
  | [] => none

/-- Match exactly `n` characters of class `p`, returning (matched, remainder);
embeds the regex pieces `\d{2}`, `\w{3}`, `\d{4}`, `\d{8}`. -/
def takeClass (p : Char → Bool) : Nat → List Char → Option (List Char × List Char)
  | 0, cs => some ([], cs)
  | _ + 1, [] => none
  | n + 1, c :: cs =>
    if p c then
      match takeClass p n cs with
      | some (m, rest) => some (c :: m, rest)
      | none => none
    else none

/-- Embeds `[0-9,]+\.\d{2}`: the greedy run `[0-9,]+` is deterministic here
because `.` is outside the class, so a shorter run would leave a class
character (not `.`) as the next input character.  Returns the matched text and
the remainder. -/
def moneyTail (cs : List Char) : Option (List Char × List Char) :=
  let run := cs.takeWhile isAmtCh
  let rest := cs.dropWhile isAmtCh
  if run.isEmpty then none
  else
    match expectCh '.' rest with
    | none => none
    | some r1 =>
      match takeClass isDigitCh 2 r1 with
      | none => none
      | some (ds, r2) => some (run ++ '.' :: ds, r2)

/-- Embeds the trailing running-balance part `\s-?£[0-9,]+\.\d{2}` of
`TRANSACTION_PATTERN`.  `-?` is deterministic: if the optional `-` is present
but the rest fails, retrying without it immediately fails on the literal `£`.
Returns the remainder after the match. -/
def balTail : List Char → Option (List Char)
  | c :: cs =>
    if isWS c then
      match cs with
      | '-' :: r =>
        match expectCh '£' r with
        | some r2 => (moneyTail r2).map (·.2)
        | none => none
      | _ =>
        match expectCh '£' cs with
        | some r2 => (moneyTail r2).map (·.2)
        | none => none
    else none
  | [] => none

/-- Embeds `(\+|-)£([0-9,]+\.\d{2})` followed by the balance part: yields the
sign character, the captured amount group and the remainder. -/
def signTail : List Char → Option (Char × List Char × List Char)
  | c :: cs =>
    if c = '+' || c = '-' then
      match expectCh '£' cs with
      | some r1 =>
        match moneyTail r1 with
        | some (amt, r2) =>
          match balTail r2 with
          | some r3 => some (c, amt, r3)
          | none => none
        | none => none
      | none => none
    else none
  | [] => none

/-- Greedy backtracking for the `\s+` before the sign: the whitespace run is
consumed maximally, then given back one character at a time (never below one)
until the continuation `signTail` succeeds — Python's greedy `+` order. -/
def wsLoopSign : List Char → List Char → Option (Char × List Char × List Char)
  | consumedRev, rest =>
    match signTail rest with
    | some out => some out
    | none =>
      match consumedRev with
      | [] => none
      | [_] => none
      | c :: pre => wsLoopSign pre (c :: rest)

/-- The part `\s+(\+|-)£([0-9,]+\.\d{2})\s-?£[0-9,]+\.\d{2}` starting at `cs`. -/
def wsSignStart (cs : List Char) : Option (Char × List Char × List Char) :=
  let run := cs.takeWhile isWS
  if run.isEmpty then none
  else wsLoopSign run.reverse (cs.dropWhile isWS)

/-- Greedy backtracking for the description group `(.*)`: consumed maximally
(up to newline/end), given back one character at a time until the continuation
succeeds; the capture is the consumed prefix.  Python's greedy `*` order. -/
def descLoop : List Char → List Char → Option (List Char × Char × List Char × List Char)
  | consumedRev, rest =>
    match wsSignStart rest with
    | some (sgn, amt, r) => some (consumedRev.reverse, sgn, amt, r)
    | none =>
      match consumedRev with
      | [] => none
      | c :: pre => descLoop pre (c :: rest)

/-- The part `(.*)\s+(\+|-)£(...)...` starting at `cs`. -/
def descStart (cs : List Char) : Option (List Char × Char × List Char × List Char) :=
  descLoop (cs.takeWhile isDot).reverse (cs.dropWhile isDot)

/-- Greedy backtracking for the `\s+` between the date and the description. -/
def wsLoopDesc : List Char → List Char → Option (List Char × Char × List Char × List Char)
  | consumedRev, rest =>
    match descStart rest with
    | some out => some out
    | none =>
      match consumedRev with
      | [] => none
      | [_] => none
      | c :: pre => wsLoopDesc pre (c :: rest)

/-- One tuple produced by `TRANSACTION_PATTERN.findall`: the four groups
(date text, description, sign, amount digits). -/
structure RawMatch where
  date : List Char
  payee : List Char
  sign : Char
  amount : List Char
  deriving DecidableEq, Repr

/-- Attempt to match
`(\d{2} \w{3} \d{4})\s+(.*)\s+(\+|-)£([0-9,]+\.\d{2})\s-?£[0-9,]+\.\d{2}`
at the start of `cs`; on success return the four groups and the remainder of
the text after the match. -/
def matchTxnAt (cs : List Char) : Option (RawMatch × List Char) :=
  match takeClass isDigitCh 2 cs with
  | none => none
  | some (dd, r1) =>
    match expectCh ' ' r1 with
    | none => none
    | some r2 =>
      match takeClass isWordCh 3 r2 with
      | none => none
      | some (mon, r3) =>
        match expectCh ' ' r3 with
        | none => none
        | some r4 =>
          match takeClass isDigitCh 4 r4 with
          | none => none
          | some (yy, r5) =>
            let run := r5.takeWhile isWS
            if run.isEmpty then none
            else
              match wsLoopDesc run.reverse (r5.dropWhile isWS) with
              | some (payee, sgn, amt, rest) =>
                some (⟨dd ++ ' ' :: mon ++ ' ' :: yy, payee, sgn, amt⟩, rest)
              | none => none

/-- Scan loop of `re.findall`: try to match at each position from the left; on
a match, continue after its end (matches are non-overlapping).  Fuel is the
length of the text; every match consumes at least one character, so the fuel
never runs out. -/
def findAllAux : Nat → List Char → List RawMatch
  | 0, _ => []
  | _ + 1, [] => []
  | fuel + 1, cs@(_ :: rest) =>
    match matchTxnAt cs with
    | some (m, rem) => m :: findAllAux fuel rem
    | none => findAllAux fuel rest

/-- Embeds `TRANSACTION_PATTERN.findall(text)`. -/
def findall_txn (cs : List Char) : List RawMatch := findAllAux cs.length cs

/-- Numeric value of a digit character. -/
def digitVal (c : Char) : Nat := c.toNat - '0'.toNat

/-- The abbreviated month names accepted by `strptime`'s `%b` in the default
locale, case-insensitively. -/
def monthNum (m : List Char) : Option Nat :=
  let l := m.map Char.toLower
  if l = "jan".data then some 1
  else if l = "feb".data then some 2
  else if l = "mar".data then some 3
  else if l = "apr".data then some 4
  else if l = "may".data then some 5
  else if l = "jun".data then some 6
  else if l = "jul".data then some 7
  else if l = "aug".data then some 8
  else if l = "sep".data then some 9
  else if l = "oct".data then some 10
  else if l = "nov".data then some 11
  else if l = "dec".data then some 12
  else none

/-- Gregorian leap-year rule used by `datetime`. -/
def leapYear (y : Nat) : Bool := y % 4 = 0 && (!(y % 100 = 0) || y % 400 = 0)

/-- Number of days in a month, as validated by `datetime.date`. -/
def monthLen (y m : Nat) : Nat :=
  if m = 2 then (if leapYear y then 29 else 28)
  else if m = 4 || m = 6 || m = 9 || m = 11 then 30
  else 31

/-- Embeds `datetime.strptime(s, '%d %b %Y').date()` on the 11-character
strings delivered by the date group of `TRANSACTION_PATTERN` (`\d{2} \w{3}
\d{4}`): two digits, a month abbreviation (case-insensitive), four digits, and
the value checks done by `_strptime` plus the `datetime.date` constructor
(day within the month, year at least 1).  `none` models the raised
`ValueError`. -/
def parseDate : List Char → Option Date
  | [a, b, ' ', m1, m2, m3, ' ', c, d, e, f] =>
    if a.isDigit && b.isDigit && c.isDigit && d.isDigit && e.isDigit && f.isDigit then
      match monthNum [m1, m2, m3] with
      | some m =>
        let day := 10 * digitVal a + digitVal b
        let year := 1000 * digitVal c + 100 * digitVal d + 10 * digitVal e + digitVal f
        if 1 ≤ day ∧ day ≤ monthLen year m ∧ 1 ≤ year then some (year, m, day)
        else none
      | none => none
    else none
  | _ => none

/-- The loop body of `find_transactions`: parse the date of one match and
apply the sign rule `if sign == '-': amount = sign + amount`. -/
def mkTxn (m : RawMatch) : Option Txn :=
  match parseDate m.date with
  | none => none
  | some d => some (d, m.payee, if m.sign = '-' then '-' :: m.amount else m.amount)

/-- Apply `f` to every element, failing (like an uncaught exception at the
first bad element) if any application fails. -/
def mapOpt (f : α → Option β) : List α → Option (List β)
  | [] => some []
  | a :: as =>
    match f a with
    | none => none
    | some b =>
      match mapOpt f as with
      | none => none
      | some bs => some (b :: bs)

/-- Embeds `find_transactions`: iterate over the `findall` tuples, building
one transaction per match; `none` models the `ValueError` that `strptime`
raises on a matched but invalid date. -/
def find_transactions (text : List Char) : Option (List Txn) :=
  mapOpt mkTxn (findall_txn text)

/-- The literal part of `ACCOUNT_NAME_PATTERN` between the capture group and
the digits. -/
def accountSep : List Char := (" statement Account number: ").data

/-- Match a literal character sequence, returning the remainder. -/
def dropLiteral : List Char → List Char → Option (List Char)
  | [], cs => some cs
  | _ :: _, [] => none
  | l :: ls, c :: cs => if c = l then dropLiteral ls cs else none

/-- Test whether ` statement Account number: \d{8}` matches at the start of
`cs` (trailing characters are unconstrained, as in the pattern). -/
def sepDigitsAt (cs : List Char) : Bool :=
  match dropLiteral accountSep cs with
  | none => false
  | some r =>
    match takeClass isDigitCh 8 r with
    | none => false
    | some _ => true

/-- Greedy backtracking for the capture group of `^(.*) statement Account
number: \d{8}`: the group is consumed maximally and given back one character
at a time until the literal-and-digits continuation matches. -/
def capLoop : List Char → List Char → Option (List Char)
  | consumedRev, rest =>
    if sepDigitsAt rest then some consumedRev.reverse
    else
      match consumedRev with
      | [] => none
      | c :: pre => capLoop pre (c :: rest)

/-- Try `ACCOUNT_NAME_PATTERN` on one line: the line has no newline, so the
whole match (the `.*` group, the literal and the digits contain no newline
matcher) stays inside the line. -/
def captureInLine (line : List Char) : Option (List Char) :=
  capLoop line.reverse []

/-- Split a text into its lines.  With `re.M`, the `^` anchor matches exactly
at position 0 and after every newline — the start positions of these lines. -/
def splitLines : List Char → List (List Char)
  | [] => [[]]
  | c :: rest =>
    if c = '\n' then [] :: splitLines rest
    else
      match splitLines rest with
      | l :: ls => (c :: l) :: ls
      | [] => [[c]]

/-- Embeds `find_account_name`: `ACCOUNT_NAME_PATTERN.search(text)` tries the
pattern at each position from the left; positions that are not line starts
fail at the `^` anchor, so the search is equivalent to trying each line in
order and returning the first line's capture. -/
def find_account_name (text : List Char) : Option (List Char) :=
  (splitLines text).findSome? captureInLine

/-- The reasons `parse_pdf_statement` terminates the process (`fatal_error`)
or lets an exception escape, on an extracted text. -/
inductive ParseError
  | noAccount
  | dateError
  | noTransactions
  deriving DecidableEq, Repr

/-- Embeds `parse_pdf_statement` after a successful text extraction: fatal
error when the account name is missing, a propagated `ValueError` when a
matched date is invalid, fatal error when zero transactions were found. -/
def parse_pdf_statement (text : List Char) : Except ParseError (List Char × List Txn) :=
  match find_account_name text with
  | none => .error .noAccount
  | some account_name =>
    match find_transactions text with
    | none => .error .dateError
    | some transactions =>
      if transactions.length = 0 then .error .noTransactions
      else .ok (account_name, transactions)

/-- An account ledger: `main`'s `defaultdict(list)` keyed by account name, as
an insertion-ordered association list. -/
abbrev Ledger := List (List Char × List Txn)

/-- Embeds `all_transactions[account_name] += statement_transactions` on a
`defaultdict(list)`: extend the existing entry, or append a new key at the
end (dicts preserve insertion order). -/
def addToLedger (ledger : Ledger) (name : List Char) (ts : List Txn) : Ledger :=
  match ledger with
  | [] => [(name, ts)]
  | (k, v) :: rest =>
    if k = name then (k, v ++ ts) :: rest
    else (k, v) :: addToLedger rest name ts

/-- The accumulation loop of `main` over the per-statement results, in
file-processing order. -/
def buildLedger (pairs : List (List Char × List Txn)) : Ledger :=
  pairs.foldl (fun led p => addToLedger led p.1 p.2) []

instance : DecidableEq (List Char × List Txn) :=
  @instDecidableEqProd _ _ inferInstance inferInstance

instance : DecidableEq Ledger :=
  @instDecidableEqList _ inferInstance

/-- Dictionary lookup by key (string equality, no normalization). -/
def lookupLedger (k : List Char) : Ledger → Option (List Txn)
  | [] => none
  | (n, v) :: rest => if n = k then some v else lookupLedger k rest

/-- Python `<` on strings: lexicographic by code point, a proper prefix is
smaller. -/
def strLt : List Char → List Char → Bool
  | [], [] => false
  | [], _ :: _ => true
  | _ :: _, [] => false
  | a :: as, b :: bs => if a < b then true else if a = b then strLt as bs else false

/-- Python `<` on `datetime.date`: chronological, i.e. lexicographic on
(year, month, day). -/
def dateLt (a b : Date) : Bool :=
  if a.1 < b.1 then true
  else if a.1 = b.1 then
    (if a.2.1 < b.2.1 then true
     else if a.2.1 = b.2.1 then decide (a.2.2 < b.2.2)
     else false)
  else false

/-- Python `<` on `Transaction` tuples: lexicographic on (date, description,
amount) — this is the comparison used by `account_transactions.sort()`. -/
def txnLt (a b : Txn) : Bool :=
  if dateLt a.1 b.1 then true
  else if a.1 = b.1 then
    (if strLt a.2.1 b.2.1 then true
     else if a.2.1 = b.2.1 then strLt a.2.2 b.2.2
     else false)
  else false

/-- The non-strict order induced by `txnLt`; `a ≤ b` iff not `b < a`. -/
def txnLeP (a b : Txn) : Prop := txnLt b a = false

instance : DecidableRel txnLeP := fun a b => instDecidableEqBool (txnLt b a) false

/-- Embeds `account_transactions.sort()`.  Python's sort is a stable sort by
the tuple comparison `txnLt`; since that comparison is a total order on
transactions (antisymmetric: tuples comparing equal are equal), its output on
any input list is the unique `txnLeP`-sorted permutation of the input, which
is what `insertionSort` computes. -/
def pySort (l : List Txn) : List Txn := l.insertionSort txnLeP

/-- The output loop of `main`: each account's accumulated list, sorted. -/
def finalize (ledger : Ledger) : Ledger := ledger.map (fun p => (p.1, pySort p.2))

/-- The whole aggregation of `main` on the per-statement parse results. -/
def runAggregation (pairs : List (List Char × List Txn)) : Ledger :=
  finalize (buildLedger pairs)

/-- Decimal digits of `n`, most significant first. -/
def natDigits (n : Nat) : List Char := Nat.toDigits 10 n

/-- Zero-pad a number to `w` digits, as Python's `%0wd`. -/
def padNum (w n : Nat) : List Char :=
  List.replicate (w - (natDigits n).length) '0' ++ natDigits n

/-- Embeds `str(date)` (equivalently `date.isoformat()`): zero-padded
`YYYY-MM-DD`. -/
def dateIso (d : Date) : List Char :=
  padNum 4 d.1 ++ '-' :: padNum 2 d.2.1 ++ '-' :: padNum 2 d.2.2

/-- Embeds `generate_filename`: `transactions[0]` and `transactions[-1]`
(an empty list raises `IndexError`, modelled by `none`) interpolated into
`f'{account_name} - {start_date} to {end_date}.csv'`. -/
def generate_filename (account_name : List Char) (transactions : List Txn) :
    Option (List Char) :=
  match transactions.head?, transactions.getLast? with
  | some t0, some tn =>
    some (account_name ++ (" - ").data ++ dateIso t0.1 ++ (" to ").data ++
      dateIso tn.1 ++ (".csv").data)
  | _, _ => none

/-! ### Order-theoretic facts about the tuple comparison -/

theorem strLt_cons_iff {a b : Char} {as bs : List Char} :
    strLt (a :: as) (b :: bs) = true ↔ a < b ∨ (a = b ∧ strLt as bs = true) := by
  by_cases hab : a < b
  · simp [strLt, hab]
  · by_cases heq : a = b
    · simp [strLt, hab, heq]
    · simp [strLt, hab, heq]

theorem strLt_asymm : ∀ {a b : List Char}, strLt a b = true → strLt b a = true → False
  | [], [], h, _ => by simp [strLt] at h
  | [], _ :: _, _, h2 => by simp [strLt] at h2
  | _ :: _, [], h1, _ => by simp [strLt] at h1
  | a :: as, b :: bs, h1, h2 => by
    rw [strLt_cons_iff] at h1 h2
    rcases h1 with h1 | ⟨rfl, h1⟩
    · rcases h2 with h2 | ⟨rfl, _⟩
      · exact absurd h2 (lt_asymm h1)
      · exact absurd h1 (lt_irrefl _)
    · rcases h2 with h2 | ⟨_, h2⟩
      · exact absurd h2 (lt_irrefl _)
      · exact strLt_asymm h1 h2

theorem strLt_conn :
    ∀ {a b : List Char}, strLt a b = false → strLt b a = false → a = b
  | [], [], _, _ => rfl
  | [], _ :: _, h1, _ => by simp [strLt] at h1
  | _ :: _, [], _, h2 => by simp [strLt] at h2
  | a :: as, b :: bs, h1, h2 => by
    have h1' : ¬ (a < b ∨ (a = b ∧ strLt as bs = true)) := by
      rw [← strLt_cons_iff]; simp [h1]
    have h2' : ¬ (b < a ∨ (b = a ∧ strLt bs as = true)) := by
      rw [← strLt_cons_iff]; simp [h2]
    push_neg at h1' h2'
    have hab : a = b := le_antisymm h2'.1 h1'.1
    subst hab
    have t1 : strLt as bs = false := by
      cases hx : strLt as bs with
      | false => rfl
      | true => exact absurd hx (h1'.2 rfl)
    have t2 : strLt bs as = false := by
      cases hx : strLt bs as with
      | false => rfl
      | true => exact absurd hx (h2'.2 rfl)
    rw [strLt_conn t1 t2]

theorem strLt_trans :
    ∀ {a b c : List Char}, strLt a b = true → strLt b c = true → strLt a c = true
  | a, [], _, h1, _ => by cases a <;> simp [strLt] at h1
  | _, _ :: _, [], _, h2 => by simp [strLt] at h2
  | [], _ :: _, _ :: _, _, _ => by simp [strLt]
  | a :: as, b :: bs, c :: cs, h1, h2 => by
    rw [strLt_cons_iff] at h1 h2 ⊢
    rcases h1 with h1 | ⟨rfl, h1⟩
    · rcases h2 with h2 | ⟨rfl, _⟩
      · exact Or.inl (lt_trans h1 h2)
      · exact Or.inl h1
    · rcases h2 with h2 | ⟨rfl, h2⟩
      · exact Or.inl h2
      · exact Or.inr ⟨rfl, strLt_trans h1 h2⟩

theorem dateLt_iff {a b : Date} :
    dateLt a b = true ↔
      a.1 < b.1 ∨ (a.1 = b.1 ∧ (a.2.1 < b.2.1 ∨ (a.2.1 = b.2.1 ∧ a.2.2 < b.2.2))) := by
  unfold dateLt
  by_cases h1 : a.1 < b.1
  · simp [h1]
  · by_cases h2 : a.1 = b.1
    · by_cases h3 : a.2.1 < b.2.1
      · simp [h1, h2, h3]
      · by_cases h4 : a.2.1 = b.2.1
        · simp [h1, h2, h3, h4]
        · simp [h1, h2, h3, h4]
    · simp [h1, h2]

theorem dateLt_mk_iff {a1 a2 a3 b1 b2 b3 : Nat} :
    dateLt (a1, a2, a3) (b1, b2, b3) = true ↔
      a1 < b1 ∨ (a1 = b1 ∧ (a2 < b2 ∨ (a2 = b2 ∧ a3 < b3))) := by
  simpa using @dateLt_iff (a1, a2, a3) (b1, b2, b3)

theorem dateLt_asymm {a b : Date} (h1 : dateLt a b = true) (h2 : dateLt b a = true) :
    False := by
  obtain ⟨a1, a2, a3⟩ := a
  obtain ⟨b1, b2, b3⟩ := b
  rw [dateLt_mk_iff] at h1 h2; omega

theorem dateLt_conn {a b : Date} (h1 : dateLt a b = false) (h2 : dateLt b a = false) :
    a = b := by
  obtain ⟨a1, a2, a3⟩ := a
  obtain ⟨b1, b2, b3⟩ := b
  have h1' : ¬ (a1 < b1 ∨ (a1 = b1 ∧ (a2 < b2 ∨ (a2 = b2 ∧ a3 < b3)))) := by
    rw [← dateLt_mk_iff]; simp [h1]
  have h2' : ¬ (b1 < a1 ∨ (b1 = a1 ∧ (b2 < a2 ∨ (b2 = a2 ∧ b3 < a3)))) := by
    rw [← dateLt_mk_iff]; simp [h2]
  simp only [Prod.mk.injEq]
  refine ⟨?_, ?_, ?_⟩ <;> omega

theorem dateLt_trans {a b c : Date} (h1 : dateLt a b = true) (h2 : dateLt b c = true) :
    dateLt a c = true := by
  obtain ⟨a1, a2, a3⟩ := a
  obtain ⟨b1, b2, b3⟩ := b
  obtain ⟨c1, c2, c3⟩ := c
  rw [dateLt_mk_iff] at h1 h2 ⊢; omega

theorem txnLt_iff {a b : Txn} :
    txnLt a b = true ↔
      dateLt a.1 b.1 = true ∨
        (a.1 = b.1 ∧ (strLt a.2.1 b.2.1 = true ∨
          (a.2.1 = b.2.1 ∧ strLt a.2.2 b.2.2 = true))) := by
  unfold txnLt
  by_cases h1 : dateLt a.1 b.1 = true
  · simp [h1]
  · by_cases h2 : a.1 = b.1
    · by_cases h3 : strLt a.2.1 b.2.1 = true
      · simp [h1, h2, h3]
      · by_cases h4 : a.2.1 = b.2.1
        · simp [h1, h2, h3, h4]
        · simp [h1, h2, h3, h4]
    · simp [h1, h2]

theorem txnLt_asymm {a b : Txn} (h1 : txnLt a b = true) (h2 : txnLt b a = true) : False := by
  rw [txnLt_iff] at h1 h2
  rcases h1 with h1 | ⟨e1, h1⟩
  · rcases h2 with h2 | ⟨e2, _⟩
    · exact dateLt_asymm h1 h2
    · rw [e2] at h1; rw [dateLt_iff] at h1; omega
  · rcases h2 with h2 | ⟨_, h2⟩
    · rw [e1] at h2; rw [dateLt_iff] at h2; omega
    · rcases h1 with h1 | ⟨f1, h1⟩
      · rcases h2 with h2 | ⟨f2, _⟩
        · exact strLt_asymm h1 h2
        · rw [f2] at h1; exact strLt_asymm h1 h1
      · rcases h2 with h2 | ⟨_, h2⟩
        · rw [f1] at h2; exact strLt_asymm h2 h2
        · exact strLt_asymm h1 h2

theorem txnLt_conn {a b : Txn} (h1 : txnLt a b = false) (h2 : txnLt b a = false) :
    a = b := by
  have h1' : ¬ (dateLt a.1 b.1 = true ∨ (a.1 = b.1 ∧ (strLt a.2.1 b.2.1 = true ∨
      (a.2.1 = b.2.1 ∧ strLt a.2.2 b.2.2 = true)))) := by
    rw [← txnLt_iff]; simp [h1]
  have h2' : ¬ (dateLt b.1 a.1 = true ∨ (b.1 = a.1 ∧ (strLt b.2.1 a.2.1 = true ∨
      (b.2.1 = a.2.1 ∧ strLt b.2.2 a.2.2 = true)))) := by
    rw [← txnLt_iff]; simp [h2]
  push_neg at h1' h2'
  have hd1 : dateLt a.1 b.1 = false := by
    cases hx : dateLt a.1 b.1 with
    | false => rfl
    | true => exact absurd hx h1'.1
  have hd2 : dateLt b.1 a.1 = false := by
    cases hx : dateLt b.1 a.1 with
    | false => rfl
    | true => exact absurd hx h2'.1
  have hdate : a.1 = b.1 := dateLt_conn hd1 hd2
  have h1'' := h1'.2 hdate
  have h2'' := h2'.2 hdate.symm
  push_neg at h1'' h2''
  have hp1 : strLt a.2.1 b.2.1 = false := by
    cases hx : strLt a.2.1 b.2.1 with
    | false => rfl
    | true => exact absurd hx h1''.1
  have hp2 : strLt b.2.1 a.2.1 = false := by
    cases hx : strLt b.2.1 a.2.1 with
    | false => rfl
    | true => exact absurd hx h2''.1
  have hpayee : a.2.1 = b.2.1 := strLt_conn hp1 hp2
  have ha1 : strLt a.2.2 b.2.2 = false := by
    cases hx : strLt a.2.2 b.2.2 with
    | false => rfl
    | true => exact absurd hx (h1''.2 hpayee)
  have ha2 : strLt b.2.2 a.2.2 = false := by
    cases hx : strLt b.2.2 a.2.2 with
    | false => rfl
    | true => exact absurd hx (h2''.2 hpayee.symm)
  have hamt : a.2.2 = b.2.2 := strLt_conn ha1 ha2
  obtain ⟨x1, x2, x3⟩ := a
  obtain ⟨y1, y2, y3⟩ := b
  simp only at hdate hpayee hamt
  simp [hdate, hpayee, hamt]

theorem txnLt_trans {a b c : Txn} (h1 : txnLt a b = true) (h2 : txnLt b c = true) :
    txnLt a c = true := by
  rw [txnLt_iff] at h1 h2 ⊢
  rcases h1 with h1 | ⟨e1, h1⟩
  · rcases h2 with h2 | ⟨e2, _⟩
    · exact Or.inl (dateLt_trans h1 h2)
    · exact Or.inl (e2 ▸ h1)
  · rcases h2 with h2 | ⟨e2, h2⟩
    · exact Or.inl (e1 ▸ h2)
    · refine Or.inr ⟨e1.trans e2, ?_⟩
      rcases h1 with h1 | ⟨f1, h1⟩
      · rcases h2 with h2 | ⟨f2, _⟩
        · exact Or.inl (strLt_trans h1 h2)
        · exact Or.inl (f2 ▸ h1)
      · rcases h2 with h2 | ⟨f2, h2⟩
        · exact Or.inl (f1 ▸ h2)
        · exact Or.inr ⟨f1.trans f2, strLt_trans h1 h2⟩

instance : IsTotal Txn txnLeP :=
  ⟨by
    intro a b
    unfold txnLeP
    cases h1 : txnLt b a with
    | false => exact Or.inl rfl
    | true =>
      cases h2 : txnLt a b with
      | false => exact Or.inr rfl
      | true => exact absurd (txnLt_asymm h1 h2) not_false⟩

instance : IsTrans Txn txnLeP :=
  ⟨by
    intro a b c h1 h2
    unfold txnLeP at h1 h2 ⊢
    cases hx : txnLt c a with
    | false => rfl
    | true =>
      cases hy : txnLt c b with
      | true => rw [h2] at hy; exact absurd hy (by simp)
      | false =>
        cases hz : txnLt b c with
        | true =>
          have := txnLt_trans hz hx
          rw [h1] at this; exact absurd this (by simp)
        | false =>
          have : c = b := txnLt_conn hy hz
          subst this
          rw [h1] at hx; exact absurd hx (by simp)⟩

instance : IsAntisymm Txn txnLeP :=
  ⟨fun _ _ h1 h2 => txnLt_conn h2 h1⟩

/-- The sort yields a `txnLeP`-sorted list. -/
theorem pySort_sorted (l : List Txn) : List.Sorted txnLeP (pySort l) :=
  List.sorted_insertionSort txnLeP l

/-- The sort permutes its input. -/
theorem pySort_perm (l : List Txn) : (pySort l).Perm l :=
  List.perm_insertionSort txnLeP l

/-- Because the tuple order is total and antisymmetric, the sorted result
depends only on the multiset of transactions. -/
theorem pySort_congr_perm {l₁ l₂ : List Txn} (h : l₁.Perm l₂) : pySort l₁ = pySort l₂ :=
  List.eq_of_perm_of_sorted
    (((pySort_perm l₁).trans h).trans (pySort_perm l₂).symm)
    (pySort_sorted l₁) (pySort_sorted l₂)

/-! ### Facts about `mapOpt` -/

theorem mapOpt_length {f : α → Option β} :
    ∀ {l : List α} {r : List β}, mapOpt f l = some r → r.length = l.length
  | [], r, h => by simp [mapOpt] at h; simp [← h]
  | a :: as, r, h => by
    simp only [mapOpt] at h
    cases hfa : f a with
    | none => rw [hfa] at h; exact absurd h (by simp)
    | some b =>
      rw [hfa] at h
      cases hrec : mapOpt f as with
      | none => rw [hrec] at h; exact absurd h (by simp)
      | some bs =>
        rw [hrec] at h
        cases h
        simp [mapOpt_length hrec]

theorem mapOpt_get {f : α → Option β} :
    ∀ {l : List α} {r : List β}, mapOpt f l = some r →
      ∀ i (hi : i < l.length) (hi' : i < r.length),
        f (l.get ⟨i, hi⟩) = some (r.get ⟨i, hi'⟩)
  | [], _, _, i, hi, _ => by simp at hi
  | a :: as, r, h, i, hi, hi' => by
    simp only [mapOpt] at h
    cases hfa : f a with
    | none => rw [hfa] at h; exact absurd h (by simp)
    | some b =>
      rw [hfa] at h
      cases hrec : mapOpt f as with
      | none => rw [hrec] at h; exact absurd h (by simp)
      | some bs =>
        rw [hrec] at h
        cases h
        cases i with
        | zero => simpa using hfa
        | succ n =>
          exact mapOpt_get hrec n (by simpa using hi) (by simpa using hi')

theorem mapOpt_isSome_iff {f : α → Option β} :
    ∀ {l : List α}, (mapOpt f l).isSome ↔ ∀ a ∈ l, (f a).isSome
  | [] => by simp [mapOpt]
  | a :: as => by
    simp only [mapOpt, List.mem_cons]
    cases hfa : f a with
    | none => simp [hfa]
    | some b =>
      cases hrec : mapOpt f as with
      | none =>
        have : ¬ ∀ x ∈ as, (f x).isSome := by
          rw [← mapOpt_isSome_iff]; simp [hrec]
        simp only [Option.isSome_none, Option.isSome_some]
        constructor
        · intro h; exact absurd h (by simp)
        · intro h
          exact absurd (fun x hx => h x (Or.inr hx)) this
      | some bs =>
        have : ∀ x ∈ as, (f x).isSome := by
          rw [← mapOpt_isSome_iff]; simp [hrec]
        constructor
        · intro _ x hx
          rcases hx with rfl | hx
          · simp [hfa]
          · exact this x hx
        · intro _; simp

/-! ### Facts about the ledger accumulation -/

/-- The transactions of exactly the statements whose account name equals `k`,
concatenated in file-processing order. -/
def gatherFor (k : List Char) (pairs : List (List Char × List Txn)) : List Txn :=
  ((pairs.filter (fun p => p.1 = k)).map (fun p => p.2)).flatten

theorem gatherFor_cons {k : List Char} {p : List Char × List Txn}
    {ps : List (List Char × List Txn)} :
    gatherFor k (p :: ps) = if p.1 = k then p.2 ++ gatherFor k ps else gatherFor k ps := by
  by_cases h : p.1 = k <;> simp [gatherFor, List.filter_cons, h]

theorem lookup_addToLedger_self :
    ∀ (led : Ledger) (k : List Char) (ts : List Txn),
      lookupLedger k (addToLedger led k ts) =
        some ((lookupLedger k led).getD [] ++ ts)
  | [], k, ts => by simp [addToLedger, lookupLedger]
  | (n, v) :: rest, k, ts => by
    by_cases h : n = k
    · subst h; simp [addToLedger, lookupLedger]
    · simp [addToLedger, lookupLedger, h, lookup_addToLedger_self rest k ts]

theorem lookup_addToLedger_ne :
    ∀ (led : Ledger) (n k : List Char) (ts : List Txn), n ≠ k →
      lookupLedger k (addToLedger led n ts) = lookupLedger k led
  | [], n, k, ts, h => by
    simp [addToLedger, lookupLedger, h]
  | (m, v) :: rest, n, k, ts, h => by
    by_cases hm : m = n
    · subst hm; simp [addToLedger, lookupLedger, h]
    · by_cases hk : m = k
      · subst hk; simp [addToLedger, lookupLedger, hm]
      · simp [addToLedger, lookupLedger, hm, hk, lookup_addToLedger_ne rest n k ts h]

theorem lookup_fold_eq :
    ∀ (pairs : List (List Char × List Txn)) (led : Ledger) (k : List Char) (v : List Txn),
      lookupLedger k (pairs.foldl (fun l p => addToLedger l p.1 p.2) led) = some v →
        v = (lookupLedger k led).getD [] ++ gatherFor k pairs
  | [], led, k, v, h => by
    simp only [List.foldl_nil] at h
    simp [h, gatherFor]
  | p :: ps, led, k, v, h => by
    rw [List.foldl_cons] at h
    have ih := lookup_fold_eq ps (addToLedger led p.1 p.2) k v h
    by_cases hp : p.1 = k
    · rw [hp, lookup_addToLedger_self] at ih
      rw [ih, gatherFor_cons, if_pos hp]
      simp [List.append_assoc]
    · rw [lookup_addToLedger_ne led p.1 k p.2 hp] at ih
      rw [ih, gatherFor_cons, if_neg hp]

/-! ### Facts about the account-name capture -/

/-- Declarative reading of `ACCOUNT_NAME_PATTERN` on one line: some prefix is
followed by the literal ` statement Account number: ` and eight digits
(anything may follow). -/
def lineMatchesSpec (line : List Char) : Prop :=
  ∃ p d r, line = p ++ accountSep ++ d ++ r ∧ d.length = 8 ∧ d.all isDigitCh = true

theorem dropLiteral_eq_some :
    ∀ {lit cs r : List Char}, dropLiteral lit cs = some r ↔ cs = lit ++ r
  | [], cs, r => by simp [dropLiteral]
  | l :: ls, [], r => by simp [dropLiteral]
  | l :: ls, c :: cs, r => by
    by_cases h : c = l
    · subst h
      simp only [dropLiteral, if_pos rfl, List.cons_append, List.cons.injEq, true_and]
      exact dropLiteral_eq_some
    · simp [dropLiteral, h]

theorem takeClass_sound :
    ∀ {p : Char → Bool} {n : Nat} {cs m r : List Char},
      takeClass p n cs = some (m, r) → cs = m ++ r ∧ m.length = n ∧ m.all p = true
  | p, 0, cs, m, r, h => by
    simp only [takeClass, Option.some.injEq, Prod.mk.injEq] at h
    simp [← h.1, ← h.2]
  | p, n + 1, [], m, r, h => by simp [takeClass] at h
  | p, n + 1, c :: cs, m, r, h => by
    simp only [takeClass] at h
    by_cases hc : p c
    · rw [if_pos hc] at h
      cases htc : takeClass p n cs with
      | none => rw [htc] at h; exact absurd h (by simp)
      | some pr =>
        rw [htc] at h
        obtain ⟨m', rest⟩ := pr
        simp only [Option.some.injEq, Prod.mk.injEq] at h
        obtain ⟨hm, hr⟩ := h
        obtain ⟨hcs, hlen, hall⟩ := takeClass_sound htc
        subst hm; subst hr
        simp [hcs, hlen, hall, hc]
    · rw [if_neg hc] at h; exact absurd h (by simp)

theorem takeClass_complete :
    ∀ {p : Char → Bool} {m : List Char} (r : List Char), m.all p = true →
      takeClass p m.length (m ++ r) = some (m, r)
  | p, [], r, _ => by simp [takeClass]
  | p, c :: m', r, h => by
    simp only [List.all_cons, Bool.and_eq_true] at h
    simp [takeClass, h.1, takeClass_complete r h.2]

theorem sepDigitsAt_iff {cs : List Char} :
    sepDigitsAt cs = true ↔
      ∃ d r, cs = accountSep ++ d ++ r ∧ d.length = 8 ∧ d.all isDigitCh = true := by
  constructor
  · intro h
    cases hdl : dropLiteral accountSep cs with
    | none => simp [sepDigitsAt, hdl] at h
    | some rest =>
      cases htc : takeClass isDigitCh 8 rest with
      | none => simp [sepDigitsAt, hdl, htc] at h
      | some pr =>
        obtain ⟨hrest, hlen, hall⟩ :=
          @takeClass_sound isDigitCh 8 rest pr.1 pr.2 (by simpa using htc)
        have hcs : cs = accountSep ++ rest := dropLiteral_eq_some.mp hdl
        exact ⟨pr.1, pr.2, by rw [hcs, hrest, List.append_assoc], hlen, hall⟩
  · rintro ⟨d, r, hcs, hlen, hall⟩
    have hdl : dropLiteral accountSep cs = some (d ++ r) :=
      dropLiteral_eq_some.mpr (by rw [hcs, List.append_assoc])
    have htc : takeClass isDigitCh 8 (d ++ r) = some (d, r) := by
      rw [← hlen]; exact takeClass_complete r hall
    simp [sepDigitsAt, hdl, htc]

theorem capLoop_sound :
    ∀ (revP rest : List Char) (cap : List Char), capLoop revP rest = some cap →
      ∃ q, revP.reverse ++ rest = cap ++ q ∧ sepDigitsAt q = true
  | [], rest, cap, h => by
    unfold capLoop at h
    split at h
    · cases h
      exact ⟨rest, by simp, by assumption⟩
    · cases h
  | c :: pre, rest, cap, h => by
    unfold capLoop at h
    split at h
    · cases h
      exact ⟨rest, by simp, by assumption⟩
    · obtain ⟨q, heq, hq⟩ := capLoop_sound pre (c :: rest) cap h
      refine ⟨q, ?_, hq⟩
      rw [List.reverse_cons, List.append_assoc]
      simpa using heq

theorem capLoop_isSome :
    ∀ (revP rest : List Char),
      (∃ p q, p ++ q = revP.reverse ++ rest ∧ p.length ≤ revP.length ∧
        sepDigitsAt q = true) →
      (capLoop revP rest).isSome = true
  | [], rest, ⟨p, q, heq, hlen, hq⟩ => by
    have hp : p = [] := List.eq_nil_of_length_eq_zero (Nat.le_zero.mp (by simpa using hlen))
    subst hp
    simp only [List.nil_append, List.reverse_nil] at heq
    subst heq
    unfold capLoop
    rw [if_pos hq]
    simp
  | c :: pre, rest, ⟨p, q, heq, hlen, hq⟩ => by
    unfold capLoop
    by_cases hs : sepDigitsAt rest = true
    · rw [if_pos hs]; simp
    · rw [if_neg hs]
      apply capLoop_isSome pre (c :: rest)
      have hne : p.length ≠ (c :: pre).length := by
        intro hcon
        have hlen2 : p.length = ((c :: pre).reverse).length := by simpa using hcon
        obtain ⟨hp, hqr⟩ := List.append_inj heq hlen2
        subst hqr
        exact hs hq
      refine ⟨p, q, ?_, ?_, hq⟩
      · rw [heq, List.reverse_cons, List.append_assoc]
        simp
      · have h1 : p.length ≤ pre.length + 1 := by simpa using hlen
        have h2 : p.length ≠ pre.length + 1 := by simpa using hne
        omega

theorem captureInLine_sound {line cap : List Char} (h : captureInLine line = some cap) :
    ∃ d r, line = cap ++ accountSep ++ d ++ r ∧ d.length = 8 ∧
      d.all isDigitCh = true := by
  obtain ⟨q, heq, hq⟩ := capLoop_sound line.reverse [] cap h
  rw [List.reverse_reverse, List.append_nil] at heq
  obtain ⟨d, r, hq2, hlen, hall⟩ := sepDigitsAt_iff.mp hq
  refine ⟨d, r, ?_, hlen, hall⟩
  simp [heq, hq2, List.append_assoc]

theorem captureInLine_isSome_iff {line : List Char} :
    (captureInLine line).isSome = true ↔ lineMatchesSpec line := by
  constructor
  · intro h
    obtain ⟨cap, hcap⟩ := Option.isSome_iff_exists.mp h
    obtain ⟨d, r, hline, hlen, hall⟩ := captureInLine_sound hcap
    exact ⟨cap, d, r, hline, hlen, hall⟩
  · rintro ⟨p, d, r, hline, hlen, hall⟩
    apply capLoop_isSome line.reverse []
    refine ⟨p, accountSep ++ d ++ r, ?_, ?_, ?_⟩
    · rw [List.reverse_reverse, List.append_nil, hline]
      simp [List.append_assoc]
    · rw [List.length_reverse, hline]
      simp
    · exact sepDigitsAt_iff.mpr ⟨d, r, rfl, hlen, hall⟩

instance (line : List Char) : Decidable (lineMatchesSpec line) :=
  decidable_of_iff _ captureInLine_isSome_iff

theorem findSome?_eq_none_iff {f : α → Option β} :
    ∀ {l : List α}, l.findSome? f = none ↔ ∀ a ∈ l, f a = none
  | [] => by simp
  | a :: as => by
    rw [List.findSome?_cons]
    cases hfa : f a with
    | some b => simp [hfa]
    | none =>
      rw [findSome?_eq_none_iff]
      simp [hfa]

theorem findSome?_first {f : α → Option β} :
    ∀ {l : List α} {b : β}, l.findSome? f = some b →
      ∃ i, ∃ h : i < l.length, f (l.get ⟨i, h⟩) = some b ∧
        ∀ j, (hj : j < i) → f (l.get ⟨j, Nat.lt_trans hj h⟩) = none
  | [], b, h => by simp at h
  | a :: as, b, h => by
    rw [List.findSome?_cons] at h
    cases hfa : f a with
    | some c =>
      rw [hfa] at h
      cases h
      refine ⟨0, by simp, by simpa using hfa, ?_⟩
      intro j hj
      exact absurd hj (Nat.not_lt_zero j)
    | none =>
      rw [hfa] at h
      obtain ⟨i, hi, hfi, hprev⟩ := findSome?_first h
      refine ⟨i + 1, by simpa using hi, by simpa using hfi, ?_⟩
      intro j hj
      cases j with
      | zero => simpa using hfa
      | succ n =>
        have hn : n < i := by omega
        simpa using hprev n hn

/-! ### The claims -/

/-- C1 (counterexample).  The claim says the final per-account list is sorted
by date only with a stable sort, so two distinct transactions with the same
date should keep their accumulated order and description should never act as
a tie-breaker.  `account_transactions.sort()` however compares whole
`(date, description, amount)` tuples: with equal dates and descriptions
`"b"` before `"a"` in accumulated order, aggregation swaps them. -/
theorem C1_counterexample :
    runAggregation [(("Acc").data,
        [(((2024, 1, 1) : Date), ("b").data, ("1.00").data),
         (((2024, 1, 1) : Date), ("a").data, ("2.00").data)])] =
      [(("Acc").data,
        [(((2024, 1, 1) : Date), ("a").data, ("2.00").data),
         (((2024, 1, 1) : Date), ("b").data, ("1.00").data)])] ∧
    ((((2024, 1, 1) : Date), ("b").data, ("1.00").data) : Txn) ≠
      (((2024, 1, 1) : Date), ("a").data, ("2.00").data) := by
  decide

/-- C1 (amended).  Every account ledger list produced by the aggregator is a
permutation of the accumulated list for that account, sorted by the full
Python tuple order on (date, description, amount) — date first, then
description, then amount as tie-breakers. -/
theorem C1_amended (pairs : List (List Char × List Txn)) (k : List Char)
    (v : List Txn) (h : (k, v) ∈ runAggregation pairs) :
    List.Sorted txnLeP v ∧ ∃ v0, (k, v0) ∈ buildLedger pairs ∧ v.Perm v0 := by
  unfold runAggregation finalize at h
  obtain ⟨p, hp, hpe⟩ := List.mem_map.mp h
  obtain ⟨p1, p2⟩ := p
  simp only [Prod.mk.injEq] at hpe
  obtain ⟨hk, hv⟩ := hpe
  subst hk
  exact ⟨hv ▸ pySort_sorted p2, ⟨p2, hp, hv ▸ pySort_perm p2⟩⟩

/-- C1 (witness for the amended claim). -/
theorem C1_witness :
    List.Sorted txnLeP
      [(((2024, 1, 1) : Date), ("a").data, ("2.00").data),
       (((2024, 1, 1) : Date), ("b").data, ("1.00").data)] ∧
    ∃ v0, (("Acc").data, v0) ∈ buildLedger [(("Acc").data,
        [(((2024, 1, 1) : Date), ("b").data, ("1.00").data),
         (((2024, 1, 1) : Date), ("a").data, ("2.00").data)])] ∧
      List.Perm
        [(((2024, 1, 1) : Date), ("a").data, ("2.00").data),
         (((2024, 1, 1) : Date), ("b").data, ("1.00").data)] v0 :=
  C1_amended _ _ _ (by decide)

/-- C2.  For every tuple produced by the transaction pattern that yields a
transaction, the signed amount string is the bare digit string with `-`
prepended exactly when the matched sign was `-` (the `+` is discarded); in
particular a line with `-£12.50` yields `"-12.50"` and one with `+£12.50`
yields `"12.50"`. -/
theorem C2_sign_handling (m : RawMatch) (t : Txn) (h : mkTxn m = some t) :
    t.2.2 = (if m.sign = '-' then '-' :: m.amount else m.amount) ∧
    find_transactions (("01 Jan 2024 Shop -£12.50 £99.99").data) =
      some [(((2024, 1, 1) : Date), ("Shop").data, ("-12.50").data)] ∧
    find_transactions (("01 Jan 2024 Shop +£12.50 £99.99").data) =
      some [(((2024, 1, 1) : Date), ("Shop").data, ("12.50").data)] := by
  refine ⟨?_, by decide, by decide⟩
  unfold mkTxn at h
  cases hp : parseDate m.date with
  | none => rw [hp] at h; cases h
  | some d => rw [hp] at h; cases h; rfl

/-- C2 (witness). -/
theorem C2_witness :
    ((((2024, 1, 1) : Date), ("X").data, '-' :: ("12.50").data) : Txn).2.2 =
      (if ('-' : Char) = '-' then '-' :: ("12.50").data else ("12.50").data) ∧
    find_transactions (("01 Jan 2024 Shop -£12.50 £99.99").data) =
      some [(((2024, 1, 1) : Date), ("Shop").data, ("-12.50").data)] ∧
    find_transactions (("01 Jan 2024 Shop +£12.50 £99.99").data) =
      some [(((2024, 1, 1) : Date), ("Shop").data, ("12.50").data)] :=
  C2_sign_handling ⟨("01 Jan 2024").data, ("X").data, '-', ("12.50").data⟩
    ((((2024, 1, 1) : Date), ("X").data, '-' :: ("12.50").data)) (by decide)

/-- C3 (counterexample).  On the claimed input the extractor does NOT return
description `"Coffee Shop"`: the greedy description group cedes only one of
the two spaces before the amount, so the description keeps a trailing
space. -/
theorem C3_counterexample :
    find_transactions (("01 Jan 2024 Coffee Shop  -£4.50 -£95.50\n").data) ≠
      some [(((2024, 1, 1) : Date), ("Coffee Shop").data, ("-4.50").data)] := by
  decide

/-- C3 (amended).  For the input text `01 Jan 2024 Coffee Shop  -£4.50
-£95.50\n` the extractor returns exactly one transaction with date
2024-01-01, description `"Coffee Shop "` (with one trailing space) and signed
amount string `"-4.50"` (the trailing running balance is discarded). -/
theorem C3_scenario :
    find_transactions (("01 Jan 2024 Coffee Shop  -£4.50 -£95.50\n").data) =
      some [(((2024, 1, 1) : Date), ("Coffee Shop ").data, ("-4.50").data)] := by
  decide

/-- C4 (counterexample).  A text with exactly one occurrence of the
transaction pattern on which `find_transactions` does not return one
transaction: the matched date `00 Foo 0000` makes `strptime` raise, so the
function fails instead of returning a list. -/
theorem C4_counterexample :
    (findall_txn (("00 Foo 0000 B -£2.00 £3.00").data)).length = 1 ∧
    find_transactions (("00 Foo 0000 B -£2.00 £3.00").data) = none := by
  decide

/-- C4 (amended).  Whenever `find_transactions` returns (i.e. every matched
date is a valid date), it returns exactly one transaction per
non-overlapping occurrence of the transaction pattern, in document order:
the i-th transaction is built from the i-th match of the scan. -/
theorem C4_order_preserved (text : List Char) (l : List Txn)
    (h : find_transactions text = some l) :
    l.length = (findall_txn text).length ∧
    ∀ i (hi : i < (findall_txn text).length) (hi' : i < l.length),
      mkTxn ((findall_txn text).get ⟨i, hi⟩) = some (l.get ⟨i, hi'⟩) := by
  unfold find_transactions at h
  exact ⟨mapOpt_length h, fun i hi hi' => mapOpt_get h i hi hi'⟩

/-- C4 (witness). -/
theorem C4_witness :
    ([(((2024, 2, 2) : Date), ("A").data, ("1.00").data),
      (((2024, 3, 3) : Date), ("B").data, ("-2,000.99").data)] : List Txn).length =
      (findall_txn (("02 Feb 2024 A +£1.00 £2.00\n03 Mar 2024 B -£2,000.99 -£3.00\n").data)).length ∧
    ∀ i (hi : i < (findall_txn (("02 Feb 2024 A +£1.00 £2.00\n03 Mar 2024 B -£2,000.99 -£3.00\n").data)).length)
      (hi' : i < ([(((2024, 2, 2) : Date), ("A").data, ("1.00").data),
        (((2024, 3, 3) : Date), ("B").data, ("-2,000.99").data)] : List Txn).length),
      mkTxn ((findall_txn (("02 Feb 2024 A +£1.00 £2.00\n03 Mar 2024 B -£2,000.99 -£3.00\n").data)).get ⟨i, hi⟩) =
        some (([(((2024, 2, 2) : Date), ("A").data, ("1.00").data),
          (((2024, 3, 3) : Date), ("B").data, ("-2,000.99").data)] : List Txn).get ⟨i, hi'⟩) :=
  C4_order_preserved _ _ (by decide)

/-- C5.  The account-name recognizer returns `none` exactly when no line of
the text matches `<free text> statement Account number: <8 digits>`; when it
returns a name, that name is the free-text prefix of the first matching
line, with the literal suffix and the digits removed. -/
theorem C5_account_name (text : List Char) :
    (find_account_name text = none ↔ ∀ l ∈ splitLines text, ¬ lineMatchesSpec l) ∧
    (∀ cap, find_account_name text = some cap →
      ∃ i, ∃ h : i < (splitLines text).length,
        lineMatchesSpec ((splitLines text).get ⟨i, h⟩) ∧
        (∀ j (hj : j < i), ¬ lineMatchesSpec ((splitLines text).get ⟨j, Nat.lt_trans hj h⟩)) ∧
        (∃ d r, (splitLines text).get ⟨i, h⟩ = cap ++ accountSep ++ d ++ r ∧
          d.length = 8 ∧ d.all isDigitCh = true)) := by
  constructor
  · rw [show find_account_name text = (splitLines text).findSome? captureInLine from rfl,
      findSome?_eq_none_iff]
    constructor
    · intro h l hl hspec
      have h2 : (captureInLine l).isSome = true := captureInLine_isSome_iff.mpr hspec
      rw [h l hl] at h2
      simp at h2
    · intro h l hl
      cases hc : captureInLine l with
      | none => rfl
      | some cap =>
        have : lineMatchesSpec l := captureInLine_isSome_iff.mp (by simp [hc])
        exact absurd this (h l hl)
  · intro cap hcap
    obtain ⟨i, hi, hfi, hprev⟩ := findSome?_first hcap
    refine ⟨i, hi, ?_, ?_, ?_⟩
    · exact captureInLine_isSome_iff.mp (by rw [hfi]; rfl)
    · intro j hj hspec
      have h2 := captureInLine_isSome_iff.mpr hspec
      rw [hprev j hj] at h2
      simp at h2
    · exact captureInLine_sound hfi

/-- C5 (witness). -/
theorem C5_witness :
    find_account_name (("no account here\nat all").data) = none :=
  (C5_account_name _).1.mpr (by decide)

/-- C6.  A readable statement whose text has zero transaction-pattern matches
never parses successfully: `parse_pdf_statement` signals a fatal error (for
the missing account name or for the empty transaction list), not an
empty-list success. -/
theorem C6_zero_matches_fatal (text : List Char) (h : findall_txn text = []) :
    ∃ e, parse_pdf_statement text = .error e := by
  unfold parse_pdf_statement
  cases han : find_account_name text with
  | none => exact ⟨.noAccount, rfl⟩
  | some name =>
    have hft : find_transactions text = some [] := by
      unfold find_transactions
      rw [h]
      rfl
    rw [hft]
    exact ⟨.noTransactions, rfl⟩

/-- C6 (witness). -/
theorem C6_witness : ∃ e, parse_pdf_statement (("hello").data) = .error e :=
  C6_zero_matches_fatal _ (by decide)

/-- C7.  For a non-empty transaction list, the output filename is exactly the
account name, `" - "`, the ISO date (zero-padded year-month-day) of the first
transaction, `" to "`, the ISO date of the last transaction, and `.csv`. -/
theorem C7_filename (account_name : List Char) (transactions : List Txn)
    (h : transactions ≠ []) :
    generate_filename account_name transactions =
      some (account_name ++ (" - ").data ++ dateIso (transactions.head h).1 ++
        (" to ").data ++ dateIso (transactions.getLast h).1 ++ (".csv").data) := by
  unfold generate_filename
  rw [List.head?_eq_head h, List.getLast?_eq_getLast transactions h]

/-- C7 (witness). -/
theorem C7_witness :
    generate_filename (("A").data)
        [(((2024, 1, 1) : Date), ("x").data, ("1.00").data),
         (((2024, 2, 3) : Date), ("y").data, ("2.00").data)] =
      some (("A - 2024-01-01 to 2024-02-03.csv").data) :=
  (C7_filename (("A").data)
    [(((2024, 1, 1) : Date), ("x").data, ("1.00").data),
     (((2024, 2, 3) : Date), ("y").data, ("2.00").data)] (by decide)).trans (by decide)

/-- C8.  Every transaction list stored under a key of the accumulated ledger
is exactly the concatenation, in file-processing order, of the transaction
lists of the statements whose account name is string-equal to that key —
provenance by exact key match, and accumulation by appending, never by
overwriting. -/
theorem C8_ledger_invariant (pairs : List (List Char × List Txn)) (k : List Char)
    (v : List Txn) (h : lookupLedger k (buildLedger pairs) = some v) :
    v = gatherFor k pairs := by
  have h2 := lookup_fold_eq pairs [] k v h
  simpa [lookupLedger] using h2

/-- C8 (witness). -/
theorem C8_witness :
    ([(((2024, 1, 1) : Date), ("x").data, ("1.00").data),
      (((2024, 3, 3) : Date), ("z").data, ("3.00").data)] : List Txn) =
      gatherFor (("A").data)
        [(("A").data, [(((2024, 1, 1) : Date), ("x").data, ("1.00").data)]),
         (("B").data, [(((2024, 2, 2) : Date), ("y").data, ("2.00").data)]),
         (("A").data, [(((2024, 3, 3) : Date), ("z").data, ("3.00").data)])] :=
  C8_ledger_invariant _ _ _ (by decide)

/-- C9.  Two statements recognized as the same account, processed in either
file order, aggregate to the same sorted transaction list: the final
per-account output is invariant under swapping the input order. -/
theorem C9_order_invariance (n : List Char) (t1 t2 : List Txn) :
    runAggregation [(n, t1), (n, t2)] = runAggregation [(n, t2), (n, t1)] := by
  have hb : ∀ a b : List Txn, buildLedger [(n, a), (n, b)] = [(n, a ++ b)] := by
    intro a b
    simp [buildLedger, addToLedger]
  unfold runAggregation finalize
  rw [hb t1 t2, hb t2 t1]
  simp only [List.map_cons, List.map_nil]
  rw [pySort_congr_perm (@List.perm_append_comm Txn t1 t2)]

/-- C10 (counterexample).  `find_transactions` is not total: the pattern's
date group accepts any two digits and any three word characters, and on the
matched but invalid date `99 Zzz 2024` the `strptime` call raises, so the
function fails although the text contains a pattern match. -/
theorem C10_counterexample :
    find_transactions (("99 Zzz 2024 A +£1.00 £1.00").data) = none ∧
    findall_txn (("99 Zzz 2024 A +£1.00 £1.00").data) ≠ [] ∧
    parseDate (("99 Zzz 2024").data) = none := by
  decide

/-- C10 (amended).  `find_transactions` returns a list exactly when every
date substring matched by the transaction pattern parses as a valid
day/abbreviated-month/year date; on any other matched date it fails with the
propagated `ValueError`. -/
theorem C10_amended (text : List Char) :
    (find_transactions text).isSome = true ↔
      ∀ m ∈ findall_txn text, (parseDate m.date).isSome = true := by
  have hm : ∀ m : RawMatch, (mkTxn m).isSome = (parseDate m.date).isSome := by
    intro m
    unfold mkTxn
    cases parseDate m.date <;> simp
  unfold find_transactions
  rw [mapOpt_isSome_iff]
  simp only [hm]

/-- C10 (witness for the amended claim). -/
theorem C10_witness :
    (find_transactions (("01 Jan 2024 Shop -£1.00 £2.00").data)).isSome = true :=
  (C10_amended _).mpr (by decide)

end Chase
